import Mathlib

/-
Shallow embedding of the core of the maelstrom repository:

* src/maelstrom/stabilization.py — the SUPG stabilization engine.  Both
  C++ expression bodies (`supg`, with the full set of runtime checks, and
  `supg2`, whose directed-diameter assertion and tau sanity check are
  commented out and whose small-convection branch lacks a return) are
  translated as functions over ℝ returning `Except`, with each live
  `assert`/`throw` modelled as an error value.

* src/maelstrom/stokes_heat.py — `_solve_fixed_point`, the fixed-point
  warm start.  The two collaborator solves (heat, Stokes) are abstracted
  as function parameters; the loop structure, the placement of the
  coefficient evaluation rho(theta0), the convergence test and the
  returned iterate follow the source line by line.  The unbounded
  `while True` loop is embedded with an explicit fuel argument whose
  exhaustion yields `none` (meaning: the source loop is still running).
-/

namespace Maelstrom

noncomputable section

open scoped Classical

/-- DOLFIN_EPS from dolfin/common/constants.h, used by the
conv_norm < DOLFIN_EPS test in stabilization.py. -/
def DOLFIN_EPS : ℝ := 3e-16

/-- Scalar 2D cross product a.x*b.y - a.y*b.x. -/
def cross2 (a b : ℝ × ℝ) : ℝ := a.1 * b.2 - a.2 * b.1

/-- Euclidean distance of two points, as computed by dolfin Point::distance. -/
def dist2 (a b : ℝ × ℝ) : ℝ := Real.sqrt ((a.1 - b.1) ^ 2 + (a.2 - b.2) ^ 2)

/-- Euclidean norm of the convection sample (conv_norm in the source). -/
def norm2 (v : ℝ × ℝ) : ℝ := Real.sqrt (v.1 ^ 2 + v.2 ^ 2)

/-- A triangular cell, given by its three vertex coordinates. -/
structure Tri where
  p0 : ℝ × ℝ
  p1 : ℝ × ℝ
  p2 : ℝ × ℝ

/-- cell.volume() of a 2D triangle: its unsigned area. -/
def triArea (t : Tri) : ℝ := |cross2 (t.p1 - t.p0) (t.p2 - t.p0)| / 2

/-- One term of the edge accumulation: for the edge e = a - b the source adds
fabs(e1*v[0] - e0*v[1]), i.e. |e_y*v_x - e_x*v_y|. -/
def edgeTerm (a b v : ℝ × ℝ) : ℝ := |(a.2 - b.2) * v.1 - (a.1 - b.1) * v.2|

/-- The double loop over vertex pairs (0,1), (0,2), (1,2) in both supg bodies. -/
def edgeSum (t : Tri) (v : ℝ × ℝ) : ℝ :=
  edgeTerm t.p0 t.p1 v + edgeTerm t.p0 t.p2 v + edgeTerm t.p1 t.p2 v

/-- The directed cell diameter h = 4 * ||b|| * area / sum of the source. -/
def directedDiameter (t : Tri) (v : ℝ × ℝ) : ℝ := 4 * norm2 v * triArea t / edgeSum t v

/-- Largest pairwise vertex distance: the conventional diameter of the
triangle as a point set (its longest edge). -/
def maxEdge (t : Tri) : ℝ := max (dist2 t.p0 t.p1) (max (dist2 t.p0 t.p2) (dist2 t.p1 t.p2))

/-- cell.diameter() of old dolfin for a triangle: the diameter
0.5 * a * b * c / area of the circumscribed circle (TriangleCell.cpp). -/
def cellDiameter (t : Tri) : ℝ :=
  0.5 * dist2 t.p1 t.p2 * dist2 t.p0 t.p2 * dist2 t.p0 t.p1 / triArea t

/-- The Péclet function xi with the branch at Pe = 1e-5, exactly as in both
supg bodies: the closed form 1/tanh(Pe) - 1/Pe for Pe > 1e-5, and the
5th-order Taylor polynomial Pe/3 - Pe^3/45 + 2/945*Pe^5 otherwise. -/
def xiFun (Pe : ℝ) : ℝ :=
  if 1e-5 < Pe then 1 / Real.tanh Pe - 1 / Pe
  else Pe / 3 - Pe ^ 3 / 45 + 2 / 945 * Pe ^ 5

/-- The local Péclet number Pe = 0.5 * conv_norm * h / (p * sigma). -/
def peVal (sigma : ℝ) (p : ℕ) (t : Tri) (b : ℝ × ℝ) : ℝ :=
  0.5 * norm2 b * directedDiameter t b / (p * sigma)

/-- The stabilization parameter tau = 0.5 * h * xi / (p * conv_norm), the
common formula of both supg bodies. -/
def supgTauVal (sigma : ℝ) (p : ℕ) (t : Tri) (b : ℝ × ℝ) : ℝ :=
  0.5 * directedDiameter t b * xiFun (peVal sigma p t b) / (p * norm2 b)

/-- The abort paths of the supg evaluation: the assert on the directed
diameter, the assert on Pe > 0, and the throw on tau > 1e3. -/
inductive StabError where
  | assertDiam : StabError
  | assertPe : StabError
  | tauTooLarge : StabError
  deriving DecidableEq

/-- SupgStab::eval of `supg` (stabilization.py lines 35-130): early return of
the zero vector for conv_norm < DOLFIN_EPS, the assert h <= cell.diameter(),
the assert Pe > 0, the throw for tau > 1e3, and otherwise the vector tau*b. -/
def supgEval (sigma : ℝ) (p : ℕ) (t : Tri) (b : ℝ × ℝ) : Except StabError (ℝ × ℝ) :=
  if norm2 b < DOLFIN_EPS then Except.ok (0, 0)
  else if directedDiameter t b ≤ cellDiameter t then
    if 0 < peVal sigma p t b then
      if supgTauVal sigma p t b > 1e3 then Except.error StabError.tauTooLarge
      else Except.ok (supgTauVal sigma p t b * b.1, supgTauVal sigma p t b * b.2)
    else Except.error StabError.assertPe
  else Except.error StabError.assertDiam

/-- SupgStab::eval of `supg2` (stabilization.py lines 155-257).  The branch
for conv_norm < DOLFIN_EPS assigns tau[0] = 0.0 but has no return statement,
so the assignment is dead: execution falls through to the geometry
computation and tau[0] is unconditionally overwritten at the end.  The
h <= cell.diameter() assertion and the tau > 1e3 check are commented out in
this body; only assert(Pe > 0.0) is live. -/
def supg2Eval (sigma : ℝ) (p : ℕ) (t : Tri) (b : ℝ × ℝ) : Except StabError ℝ :=
  if 0 < peVal sigma p t b then Except.ok (supgTauVal sigma p t b)
  else Except.error StabError.assertPe

/-- The unit right-triangle test fixture (0,0), (1,0), (0,1). -/
def unitTri : Tri := ⟨(0, 0), (1, 0), (0, 1)⟩

/-- A large right triangle (0,0), (10000,0), (0,10000), on which the
computed tau exceeds the sanity bound 1e3. -/
def bigT : Tri := ⟨(0, 0), (10000, 0), (0, 10000)⟩

end

/-! Fixed-point warm start (stokes_heat.py, _solve_fixed_point).

The collaborator calls are abstracted:
* `rho` is the temperature-dependent coefficient function (`rho` in the
  source); in the loop body it is evaluated at `theta0` both for the heat
  problem (line 277, `rho=rho(theta0)`) and for the Stokes body force
  (line 286, `f = rho(theta0) * g`).
* `heatSolve c th u` stands for building heat.Heat with coefficient value
  `c`, previous temperature `th` and convection velocity `u`, and calling
  solve_stationary (lines 275-284).
* `stokesSolve c up` stands for stokes.stokes_solve updating the mixed
  velocity/pressure function in place, with body force built from the
  coefficient value `c` (lines 286-301).
* `errnorm` is dolfin errornorm, compared against the tolerance. -/

section FixedPoint

variable {Temp Vel Coef Pres E : Type}

/-- One pass of the while-True body: solve heat at the current temperature
(giving theta1), then solve Stokes with the body force evaluated at the
current temperature theta0 (not at theta1). -/
def fpStep (rho : Temp → Coef) (heatSolve : Coef → Temp → Vel → Temp)
    (stokesSolve : Coef → Vel → Vel) (theta0 : Temp) (u : Vel) : Temp × Vel :=
  (heatSolve (rho theta0) theta0 u, stokesSolve (rho theta0) u)

/-- The while-True loop of _solve_fixed_point, with fuel: `none` means the
loop has not terminated within `fuel` iterations (the source has no
iteration cap and would still be running).  On diff < tol the source breaks
without assigning theta1 to theta0, returning (u0, p0, theta0). -/
def fpLoop [LinearOrder E] (rho : Temp → Coef) (heatSolve : Coef → Temp → Vel → Temp)
    (stokesSolve : Coef → Vel → Vel) (errnorm : Temp → Temp → E) (tol : E) :
    ℕ → Temp → Vel → Option (Vel × Temp)
  | 0, _, _ => none
  | n + 1, theta0, u =>
    let s := fpStep rho heatSolve stokesSolve theta0 u
    if errnorm theta0 s.1 < tol then some (s.2, theta0)
    else fpLoop rho heatSolve stokesSolve errnorm tol n s.1 s.2

/-- Instrumented copy of `fpLoop` that also reports the convection velocity
that entered the converging iteration, for stating which energy solve
produced the final candidate. -/
def fpTrace [LinearOrder E] (rho : Temp → Coef) (heatSolve : Coef → Temp → Vel → Temp)
    (stokesSolve : Coef → Vel → Vel) (errnorm : Temp → Temp → E) (tol : E) :
    ℕ → Temp → Vel → Option (Vel × Temp × Vel)
  | 0, _, _ => none
  | n + 1, theta0, u =>
    let s := fpStep rho heatSolve stokesSolve theta0 u
    if errnorm theta0 s.1 < tol then some (s.2, theta0, u)
    else fpTrace rho heatSolve stokesSolve errnorm tol n s.1 s.2

/-- _solve_fixed_point (stokes_heat.py lines 250-328): the parameters u0, p0
are immediately rebound to the two components of the freshly allocated
(zero-initialized) mixed Function up0 = Function(WP) (lines 270-271), so the
loop starts from zero velocity whatever was passed in. -/
def solveFixedPoint [Zero Vel] [LinearOrder E] (rho : Temp → Coef)
    (heatSolve : Coef → Temp → Vel → Temp) (stokesSolve : Coef → Vel → Vel)
    (errnorm : Temp → Temp → E) (tol : E) (fuel : ℕ)
    (u0 : Vel) (p0 : Pres) (theta0 : Temp) : Option (Vel × Temp) :=
  fpLoop rho heatSolve stokesSolve errnorm tol fuel theta0 0

end FixedPoint

/-! Facts about the hyperbolic functions used by the Peclet function. -/

lemma sinh_le_mul_cosh {x : ℝ} (hx : 0 ≤ x) : Real.sinh x ≤ x * Real.cosh x := by
  have hderiv : ∀ y : ℝ, HasDerivAt (fun z : ℝ => z * Real.cosh z - Real.sinh z)
      (1 * Real.cosh y + y * Real.sinh y - Real.cosh y) y := fun y =>
    ((hasDerivAt_id y).mul (Real.hasDerivAt_cosh y)).sub (Real.hasDerivAt_sinh y)
  have hmono : MonotoneOn (fun z : ℝ => z * Real.cosh z - Real.sinh z) (Set.Ici 0) := by
    apply monotoneOn_of_deriv_nonneg (convex_Ici 0)
    · exact ((continuous_id.mul Real.continuous_cosh).sub Real.continuous_sinh).continuousOn
    · intro y _
      exact (hderiv y).differentiableAt.differentiableWithinAt
    · intro y hy
      rw [interior_Ici, Set.mem_Ioi] at hy
      rw [(hderiv y).deriv]
      have h1 : 0 ≤ y * Real.sinh y :=
        mul_nonneg hy.le (Real.sinh_nonneg_iff.mpr hy.le)
      linarith
  have h0 := hmono Set.left_mem_Ici hx hx
  simp only [Real.sinh_zero, Real.cosh_zero, mul_zero, zero_mul, sub_zero, zero_sub,
    neg_zero] at h0
  linarith

lemma tanh_pos_of_pos {x : ℝ} (hx : 0 < x) : 0 < Real.tanh x := by
  rw [Real.tanh_eq_sinh_div_cosh]
  exact div_pos (Real.sinh_pos_iff.mpr hx) (Real.cosh_pos x)

lemma tanh_le_self_of_pos {x : ℝ} (hx : 0 < x) : Real.tanh x ≤ x := by
  rw [Real.tanh_eq_sinh_div_cosh, div_le_iff (Real.cosh_pos x)]
  exact sinh_le_mul_cosh hx.le

lemma tanh_lt_one_real (x : ℝ) : Real.tanh x < 1 := by
  rw [Real.tanh_eq_sinh_div_cosh, div_lt_one (Real.cosh_pos x)]
  have h1 := Real.cosh_sub_sinh x
  have h2 := Real.exp_pos (-x)
  linarith

/-- In the closed-form branch, xi is at least 1 - 1/Pe. -/
lemma one_sub_le_xiFun {Pe : ℝ} (h : 1e-5 < Pe) : 1 - 1 / Pe ≤ xiFun Pe := by
  rw [xiFun, if_pos h]
  have hPe : 0 < Pe := lt_trans (by norm_num) h
  have h1 : 0 < Real.tanh Pe := tanh_pos_of_pos hPe
  have h2 : Real.tanh Pe < 1 := tanh_lt_one_real Pe
  have h3 : 1 ≤ 1 / Real.tanh Pe := by
    rw [le_div_iff h1]
    linarith
  linarith

/-- The Peclet function is nonnegative on nonnegative arguments, in both of
its branches. -/
lemma xiFun_nonneg {Pe : ℝ} (h : 0 ≤ Pe) : 0 ≤ xiFun Pe := by
  rw [xiFun]
  split_ifs with hgt
  · have hPe : 0 < Pe := lt_trans (by norm_num) hgt
    have h1 : 0 < Real.tanh Pe := tanh_pos_of_pos hPe
    have h2 : Real.tanh Pe ≤ Pe := tanh_le_self_of_pos hPe
    have h3 : 1 / Pe ≤ 1 / Real.tanh Pe := one_div_le_one_div_of_le h1 h2
    linarith
  · push_neg at hgt
    have hsq : Pe ^ 2 ≤ 1e-10 := by nlinarith
    have h3 : Pe ^ 3 ≤ 1e-10 * Pe := by nlinarith [sq_nonneg Pe]
    have h5 : 0 ≤ Pe ^ 5 := pow_nonneg h 5
    linarith

/-- The directed diameter formula always produces a nonnegative value. -/
lemma directedDiameter_nonneg (t : Tri) (b : ℝ × ℝ) : 0 ≤ directedDiameter t b := by
  simp only [directedDiameter, norm2, triArea, edgeSum, edgeTerm, cross2]
  positivity

/-! The directed-diameter invariant: elementary planar inequalities. -/

lemma abs_dot_le_norms (a1 a2 c1 c2 : ℝ) :
    |a1 * c1 + a2 * c2| ≤ Real.sqrt (a1 ^ 2 + a2 ^ 2) * Real.sqrt (c1 ^ 2 + c2 ^ 2) := by
  have h1 : (a1 * c1 + a2 * c2) ^ 2 ≤ (a1 ^ 2 + a2 ^ 2) * (c1 ^ 2 + c2 ^ 2) := by
    nlinarith [sq_nonneg (a1 * c2 - a2 * c1)]
  have h2 : |a1 * c1 + a2 * c2| = Real.sqrt ((a1 * c1 + a2 * c2) ^ 2) :=
    (Real.sqrt_sq_eq_abs _).symm
  rw [h2, ← Real.sqrt_mul (by positivity)]
  exact Real.sqrt_le_sqrt h1

lemma abs_cross_le_norms (a1 a2 c1 c2 : ℝ) :
    |a1 * c2 - a2 * c1| ≤ Real.sqrt (a1 ^ 2 + a2 ^ 2) * Real.sqrt (c1 ^ 2 + c2 ^ 2) := by
  have h1 : (a1 * c2 - a2 * c1) ^ 2 ≤ (a1 ^ 2 + a2 ^ 2) * (c1 ^ 2 + c2 ^ 2) := by
    nlinarith [sq_nonneg (a1 * c1 + a2 * c2)]
  have h2 : |a1 * c2 - a2 * c1| = Real.sqrt ((a1 * c2 - a2 * c1) ^ 2) :=
    (Real.sqrt_sq_eq_abs _).symm
  rw [h2, ← Real.sqrt_mul (by positivity)]
  exact Real.sqrt_le_sqrt h1

lemma mul_sub_le_max (y t m M : ℝ) (h : m ≤ t) (h2 : t ≤ M) :
    y * (t - m) ≤ max y 0 * (M - m) := by
  rcases le_total 0 y with hy | hy
  · rw [max_eq_left hy]
    exact mul_le_mul_of_nonneg_left (by linarith) hy
  · rw [max_eq_right hy]
    nlinarith

lemma max_zero_add (y : ℝ) : max y 0 = (y + |y|) / 2 := by
  rcases le_total 0 y with hy | hy
  · rw [max_eq_left hy, abs_of_nonneg hy]
    ring
  · rw [max_eq_right hy, abs_of_nonpos hy]
    ring

lemma comb_le_aux (t0 t1 t2 m M : ℝ) (h00 : m ≤ t0) (h01 : t0 ≤ M) (h10 : m ≤ t1)
    (h11 : t1 ≤ M) (h20 : m ≤ t2) (h21 : t2 ≤ M) (y0 y1 y2 : ℝ)
    (hsum : y0 + y1 + y2 = 0) :
    y0 * t0 + y1 * t1 + y2 * t2 ≤ (|y0| + |y1| + |y2|) / 2 * (M - m) := by
  have hE : y0 * t0 + y1 * t1 + y2 * t2 =
      y0 * (t0 - m) + y1 * (t1 - m) + y2 * (t2 - m) := by
    have hy2 : y2 = -y0 - y1 := by linarith
    rw [hy2]
    ring
  have b0 := mul_sub_le_max y0 t0 m M h00 h01
  have b1 := mul_sub_le_max y1 t1 m M h10 h11
  have b2 := mul_sub_le_max y2 t2 m M h20 h21
  have hmax : max y0 0 + max y1 0 + max y2 0 = (|y0| + |y1| + |y2|) / 2 := by
    rw [max_zero_add y0, max_zero_add y1, max_zero_add y2]
    linarith
  have hexp : (|y0| + |y1| + |y2|) / 2 * (M - m) =
      max y0 0 * (M - m) + max y1 0 * (M - m) + max y2 0 * (M - m) := by
    rw [← hmax]
    ring
  rw [hE, hexp]
  linarith

lemma abs_comb_le (t0 t1 t2 m M : ℝ) (h00 : m ≤ t0) (h01 : t0 ≤ M) (h10 : m ≤ t1)
    (h11 : t1 ≤ M) (h20 : m ≤ t2) (h21 : t2 ≤ M) (y0 y1 y2 : ℝ)
    (hsum : y0 + y1 + y2 = 0) :
    |y0 * t0 + y1 * t1 + y2 * t2| ≤ (|y0| + |y1| + |y2|) / 2 * (M - m) := by
  refine abs_le.mpr ⟨?_, comb_le_aux t0 t1 t2 m M h00 h01 h10 h11 h20 h21 y0 y1 y2 hsum⟩
  have h := comb_le_aux t0 t1 t2 m M h00 h01 h10 h11 h20 h21 (-y0) (-y1) (-y2)
    (by linarith)
  rw [abs_neg, abs_neg, abs_neg] at h
  linarith

/-- The directed diameter never exceeds the longest edge of the triangle. -/
lemma directedDiameter_le_maxEdge (t : Tri) (b : ℝ × ℝ)
    (hA : 0 < triArea t) (hb : 0 < norm2 b) :
    directedDiameter t b ≤ maxEdge t := by
  obtain ⟨⟨x0, y0⟩, ⟨x1, y1⟩, ⟨x2, y2⟩⟩ := t
  obtain ⟨b1, b2⟩ := b
  simp only [directedDiameter, edgeSum, edgeTerm, triArea, cross2, norm2, maxEdge, dist2,
    Prod.mk_sub_mk] at hA hb ⊢
  have hbsq : 0 < b1 ^ 2 + b2 ^ 2 := Real.sqrt_pos.mp hb
  have hA2pos : 0 < |(x1 - x0) * (y2 - y0) - (y1 - y0) * (x2 - x0)| := by linarith
  have hnbsq : Real.sqrt (b1 ^ 2 + b2 ^ 2) ^ 2 = b1 ^ 2 + b2 ^ 2 :=
    Real.sq_sqrt hbsq.le
  have hiden : (b1 ^ 2 + b2 ^ 2) * ((x1 - x0) * (y2 - y0) - (y1 - y0) * (x2 - x0)) =
      ((y1 - y2) * b1 - (x1 - x2) * b2) * (b1 * x0 + b2 * y0) +
        (-((y0 - y2) * b1 - (x0 - x2) * b2)) * (b1 * x1 + b2 * y1) +
        ((y0 - y1) * b1 - (x0 - x1) * b2) * (b1 * x2 + b2 * y2) := by
    ring
  have hsum0 : ((y1 - y2) * b1 - (x1 - x2) * b2) + (-((y0 - y2) * b1 - (x0 - x2) * b2)) +
      ((y0 - y1) * b1 - (x0 - x1) * b2) = 0 := by
    ring
  have hcomb := abs_comb_le (b1 * x0 + b2 * y0) (b1 * x1 + b2 * y1) (b1 * x2 + b2 * y2)
    (min (b1 * x0 + b2 * y0) (min (b1 * x1 + b2 * y1) (b1 * x2 + b2 * y2)))
    (max (b1 * x0 + b2 * y0) (max (b1 * x1 + b2 * y1) (b1 * x2 + b2 * y2)))
    (min_le_left _ _) (le_max_left _ _)
    (le_trans (min_le_right _ _) (min_le_left _ _))
    (le_trans (le_max_left _ _) (le_max_right _ _))
    (le_trans (min_le_right _ _) (min_le_right _ _))
    (le_trans (le_max_right _ _) (le_max_right _ _))
    ((y1 - y2) * b1 - (x1 - x2) * b2) (-((y0 - y2) * b1 - (x0 - x2) * b2))
    ((y0 - y1) * b1 - (x0 - x1) * b2) hsum0
  rw [← hiden, abs_neg] at hcomb
  rw [abs_mul, abs_of_pos hbsq] at hcomb
  set tv0 := b1 * x0 + b2 * y0 with htv0
  set tv1 := b1 * x1 + b2 * y1 with htv1
  set tv2 := b1 * x2 + b2 * y2 with htv2
  set nb := Real.sqrt (b1 ^ 2 + b2 ^ 2) with hnb
  set d01 := Real.sqrt ((x0 - x1) ^ 2 + (y0 - y1) ^ 2) with hd01
  set d02 := Real.sqrt ((x0 - x2) ^ 2 + (y0 - y2) ^ 2) with hd02
  set d12 := Real.sqrt ((x1 - x2) ^ 2 + (y1 - y2) ^ 2) with hd12
  set D := max d01 (max d02 d12) with hD
  have hd01D : d01 ≤ D := le_max_left _ _
  have hd02D : d02 ≤ D := le_trans (le_max_left _ _) (le_max_right _ _)
  have hd12D : d12 ≤ D := le_trans (le_max_right _ _) (le_max_right _ _)
  have hnbnn : 0 ≤ nb := Real.sqrt_nonneg _
  have hDnn : 0 ≤ D := le_trans (Real.sqrt_nonneg _) hd01D
  have hp01 : |tv0 - tv1| ≤ nb * d01 := by
    rw [htv0, htv1, show b1 * x0 + b2 * y0 - (b1 * x1 + b2 * y1) =
      b1 * (x0 - x1) + b2 * (y0 - y1) from by ring]
    exact abs_dot_le_norms b1 b2 (x0 - x1) (y0 - y1)
  have hp02 : |tv0 - tv2| ≤ nb * d02 := by
    rw [htv0, htv2, show b1 * x0 + b2 * y0 - (b1 * x2 + b2 * y2) =
      b1 * (x0 - x2) + b2 * (y0 - y2) from by ring]
    exact abs_dot_le_norms b1 b2 (x0 - x2) (y0 - y2)
  have hp12 : |tv1 - tv2| ≤ nb * d12 := by
    rw [htv1, htv2, show b1 * x1 + b2 * y1 - (b1 * x2 + b2 * y2) =
      b1 * (x1 - x2) + b2 * (y1 - y2) from by ring]
    exact abs_dot_le_norms b1 b2 (x1 - x2) (y1 - y2)
  have hb01 := abs_le.mp hp01
  have hb02 := abs_le.mp hp02
  have hb12 := abs_le.mp hp12
  have hnbD01 : nb * d01 ≤ nb * D := mul_le_mul_of_nonneg_left hd01D hnbnn
  have hnbD02 : nb * d02 ≤ nb * D := mul_le_mul_of_nonneg_left hd02D hnbnn
  have hnbD12 : nb * d12 ≤ nb * D := mul_le_mul_of_nonneg_left hd12D hnbnn
  have hnbDnn : 0 ≤ nb * D := mul_nonneg hnbnn hDnn
  have hMm : max tv0 (max tv1 tv2) - min tv0 (min tv1 tv2) ≤ nb * D := by
    have hMc : max tv0 (max tv1 tv2) = tv0 ∨ max tv0 (max tv1 tv2) = tv1 ∨
        max tv0 (max tv1 tv2) = tv2 := by
      rcases max_choice tv0 (max tv1 tv2) with h | h
      · exact Or.inl h
      · rcases max_choice tv1 tv2 with h2 | h2
        · exact Or.inr (Or.inl (h.trans h2))
        · exact Or.inr (Or.inr (h.trans h2))
    have hmc : min tv0 (min tv1 tv2) = tv0 ∨ min tv0 (min tv1 tv2) = tv1 ∨
        min tv0 (min tv1 tv2) = tv2 := by
      rcases min_choice tv0 (min tv1 tv2) with h | h
      · exact Or.inl h
      · rcases min_choice tv1 tv2 with h2 | h2
        · exact Or.inr (Or.inl (h.trans h2))
        · exact Or.inr (Or.inr (h.trans h2))
    rcases hMc with hM | hM | hM <;> rcases hmc with hm | hm | hm <;> rw [hM, hm] <;>
      linarith [hb01.1, hb01.2, hb02.1, hb02.2, hb12.1, hb12.2, hnbD01, hnbD02, hnbD12,
        hnbDnn]
  have hsumnn : (0 : ℝ) ≤ |(y0 - y1) * b1 - (x0 - x1) * b2| +
      |(y0 - y2) * b1 - (x0 - x2) * b2| + |(y1 - y2) * b1 - (x1 - x2) * b2| := by
    positivity
  have hsumpos : (0 : ℝ) < |(y0 - y1) * b1 - (x0 - x1) * b2| +
      |(y0 - y2) * b1 - (x0 - x2) * b2| + |(y1 - y2) * b1 - (x1 - x2) * b2| := by
    rcases lt_or_eq_of_le hsumnn with h | h
    · exact h
    · exfalso
      have h01 : (y0 - y1) * b1 - (x0 - x1) * b2 = 0 := by
        have := abs_nonneg ((y0 - y1) * b1 - (x0 - x1) * b2)
        have := abs_nonneg ((y0 - y2) * b1 - (x0 - x2) * b2)
        have := abs_nonneg ((y1 - y2) * b1 - (x1 - x2) * b2)
        exact abs_eq_zero.mp (by linarith)
      have h02 : (y0 - y2) * b1 - (x0 - x2) * b2 = 0 := by
        have := abs_nonneg ((y0 - y1) * b1 - (x0 - x1) * b2)
        have := abs_nonneg ((y0 - y2) * b1 - (x0 - x2) * b2)
        have := abs_nonneg ((y1 - y2) * b1 - (x1 - x2) * b2)
        exact abs_eq_zero.mp (by linarith)
      have h12 : (y1 - y2) * b1 - (x1 - x2) * b2 = 0 := by
        have := abs_nonneg ((y0 - y1) * b1 - (x0 - x1) * b2)
        have := abs_nonneg ((y0 - y2) * b1 - (x0 - x2) * b2)
        have := abs_nonneg ((y1 - y2) * b1 - (x1 - x2) * b2)
        exact abs_eq_zero.mp (by linarith)
      have hz : (b1 ^ 2 + b2 ^ 2) *
          ((x1 - x0) * (y2 - y0) - (y1 - y0) * (x2 - x0)) = 0 := by
        rw [hiden, h01, h02, h12]
        ring
      have hA2z : (x1 - x0) * (y2 - y0) - (y1 - y0) * (x2 - x0) = 0 := by
        rcases mul_eq_zero.mp hz with h | h
        · exact absurd h hbsq.ne'
        · exact h
      rw [hA2z] at hA2pos
      simp at hA2pos
  have hfinal : (b1 ^ 2 + b2 ^ 2) *
      |(x1 - x0) * (y2 - y0) - (y1 - y0) * (x2 - x0)| ≤
      (|(y0 - y1) * b1 - (x0 - x1) * b2| + |(y0 - y2) * b1 - (x0 - x2) * b2| +
        |(y1 - y2) * b1 - (x1 - x2) * b2|) / 2 * (nb * D) := by
    calc (b1 ^ 2 + b2 ^ 2) * |(x1 - x0) * (y2 - y0) - (y1 - y0) * (x2 - x0)|
        ≤ (|(y1 - y2) * b1 - (x1 - x2) * b2| + |(y0 - y2) * b1 - (x0 - x2) * b2| +
            |(y0 - y1) * b1 - (x0 - x1) * b2|) / 2 *
          (max tv0 (max tv1 tv2) - min tv0 (min tv1 tv2)) := hcomb
      _ ≤ (|(y1 - y2) * b1 - (x1 - x2) * b2| + |(y0 - y2) * b1 - (x0 - x2) * b2| +
            |(y0 - y1) * b1 - (x0 - x1) * b2|) / 2 * (nb * D) := by
          apply mul_le_mul_of_nonneg_left hMm
          positivity
      _ = (|(y0 - y1) * b1 - (x0 - x1) * b2| + |(y0 - y2) * b1 - (x0 - x2) * b2| +
            |(y1 - y2) * b1 - (x1 - x2) * b2|) / 2 * (nb * D) := by
          ring
  rw [div_le_iff hsumpos]
  have hcancel : nb * |(x1 - x0) * (y2 - y0) - (y1 - y0) * (x2 - x0)| ≤
      (|(y0 - y1) * b1 - (x0 - x1) * b2| + |(y0 - y2) * b1 - (x0 - x2) * b2| +
        |(y1 - y2) * b1 - (x1 - x2) * b2|) / 2 * D := by
    have hbnbpos : 0 < nb := hb
    have h2 : nb * (nb * |(x1 - x0) * (y2 - y0) - (y1 - y0) * (x2 - x0)|) ≤
        nb * ((|(y0 - y1) * b1 - (x0 - x1) * b2| + |(y0 - y2) * b1 - (x0 - x2) * b2| +
          |(y1 - y2) * b1 - (x1 - x2) * b2|) / 2 * D) := by
      have hl : nb * (nb * |(x1 - x0) * (y2 - y0) - (y1 - y0) * (x2 - x0)|) =
          (b1 ^ 2 + b2 ^ 2) * |(x1 - x0) * (y2 - y0) - (y1 - y0) * (x2 - x0)| := by
        rw [← hnbsq]
        ring
      have hr : nb * ((|(y0 - y1) * b1 - (x0 - x1) * b2| +
          |(y0 - y2) * b1 - (x0 - x2) * b2| +
          |(y1 - y2) * b1 - (x1 - x2) * b2|) / 2 * D) =
          (|(y0 - y1) * b1 - (x0 - x1) * b2| + |(y0 - y2) * b1 - (x0 - x2) * b2| +
            |(y1 - y2) * b1 - (x1 - x2) * b2|) / 2 * (nb * D) := by
        ring
      rw [hl, hr]
      exact hfinal
    exact le_of_mul_le_mul_left h2 hbnbpos
  linarith

/-- Every edge, hence the longest one, is at most the circumscribed-circle
diameter computed by cell.diameter(). -/
lemma maxEdge_le_cellDiameter (t : Tri) (hA : 0 < triArea t) :
    maxEdge t ≤ cellDiameter t := by
  obtain ⟨⟨x0, y0⟩, ⟨x1, y1⟩, ⟨x2, y2⟩⟩ := t
  simp only [maxEdge, cellDiameter, dist2, triArea, cross2, Prod.mk_sub_mk] at hA ⊢
  have hA2pos : 0 < |(x1 - x0) * (y2 - y0) - (y1 - y0) * (x2 - x0)| := by linarith
  set A2 := (x1 - x0) * (y2 - y0) - (y1 - y0) * (x2 - x0) with hA2
  set d01 := Real.sqrt ((x0 - x1) ^ 2 + (y0 - y1) ^ 2) with hd01
  set d02 := Real.sqrt ((x0 - x2) ^ 2 + (y0 - y2) ^ 2) with hd02
  set d12 := Real.sqrt ((x1 - x2) ^ 2 + (y1 - y2) ^ 2) with hd12
  have hd01nn : 0 ≤ d01 := Real.sqrt_nonneg _
  have hd02nn : 0 ≤ d02 := Real.sqrt_nonneg _
  have hd12nn : 0 ≤ d12 := Real.sqrt_nonneg _
  have hb01 : |A2| ≤ d02 * d12 := by
    have h := abs_cross_le_norms (x0 - x2) (y0 - y2) (x1 - x2) (y1 - y2)
    rw [show (x0 - x2) * (y1 - y2) - (y0 - y2) * (x1 - x2) = A2 from by rw [hA2]; ring]
      at h
    exact h
  have hb02 : |A2| ≤ d01 * d12 := by
    have h := abs_cross_le_norms (x0 - x1) (y0 - y1) (x2 - x1) (y2 - y1)
    rw [show (x0 - x1) * (y2 - y1) - (y0 - y1) * (x2 - x1) = -A2 from by rw [hA2]; ring,
      abs_neg] at h
    rw [show (x2 - x1) ^ 2 = (x1 - x2) ^ 2 from by ring,
      show (y2 - y1) ^ 2 = (y1 - y2) ^ 2 from by ring] at h
    exact h
  have hb12 : |A2| ≤ d01 * d02 := by
    have h := abs_cross_le_norms (x1 - x0) (y1 - y0) (x2 - x0) (y2 - y0)
    rw [show (x1 - x0) * (y2 - y0) - (y1 - y0) * (x2 - x0) = A2 from by rw [hA2]] at h
    rw [show (x1 - x0) ^ 2 = (x0 - x1) ^ 2 from by ring,
      show (y1 - y0) ^ 2 = (y0 - y1) ^ 2 from by ring,
      show (x2 - x0) ^ 2 = (x0 - x2) ^ 2 from by ring,
      show (y2 - y0) ^ 2 = (y0 - y2) ^ 2 from by ring] at h
    exact h
  have hRHS : 0.5 * d12 * d02 * d01 / (|A2| / 2) = d12 * d02 * d01 / |A2| := by
    rw [div_div_eq_mul_div]
    ring_nf
  rw [hRHS]
  apply max_le
  · rw [le_div_iff hA2pos]
    calc d01 * |A2| ≤ d01 * (d02 * d12) := mul_le_mul_of_nonneg_left hb01 hd01nn
      _ = d12 * d02 * d01 := by ring
  · apply max_le
    · rw [le_div_iff hA2pos]
      calc d02 * |A2| ≤ d02 * (d01 * d12) := mul_le_mul_of_nonneg_left hb02 hd02nn
        _ = d12 * d02 * d01 := by ring
    · rw [le_div_iff hA2pos]
      calc d12 * |A2| ≤ d12 * (d01 * d02) := mul_le_mul_of_nonneg_left hb12 hd12nn
        _ = d12 * d02 * d01 := by ring

/-- C4: for every nondegenerate triangle and nonzero flow direction the
directed diameter h = 4 * ||b|| * area / sum is at most the conventional
(undirected) cell diameter (the longest edge), which in turn is at most the
circumscribed-circle diameter checked by the supg assertion; the assertion
can therefore never fire in exact arithmetic. -/
theorem directed_diameter_invariant (t : Tri) (b : ℝ × ℝ)
    (hA : 0 < triArea t) (hb : 0 < norm2 b) :
    directedDiameter t b ≤ maxEdge t ∧ maxEdge t ≤ cellDiameter t :=
  ⟨directedDiameter_le_maxEdge t b hA hb, maxEdge_le_cellDiameter t hA⟩

/-! Concrete evaluations of the geometry probe on the test fixtures. -/

lemma norm2_unit : norm2 ((1 : ℝ), 0) = 1 := by
  rw [norm2]
  norm_num

lemma triArea_unitTri : triArea unitTri = 1 / 2 := by
  simp only [triArea, cross2, unitTri, Prod.mk_sub_mk]
  norm_num

lemma edgeSum_unitTri : edgeSum unitTri (1, 0) = 2 := by
  simp only [edgeSum, edgeTerm, unitTri]
  norm_num

lemma directedDiameter_unitTri : directedDiameter unitTri (1, 0) = 1 := by
  rw [directedDiameter, norm2_unit, triArea_unitTri, edgeSum_unitTri]
  norm_num

/-- C1 counterexample: on the unit right triangle with flow direction
b = (1,0), the source's edge accumulation evaluates to 2, not 1, so the
claimed triple (area, sum, h) = (0.5, 1, 2) is false. -/
theorem unit_triangle_fixture_claim_false :
    ¬ (triArea unitTri = 1 / 2 ∧ edgeSum unitTri (1, 0) = 1 ∧
        directedDiameter unitTri (1, 0) = 2) := by
  intro h
  have h2 := h.2.1
  rw [edgeSum_unitTri] at h2
  norm_num at h2

/-- C1 (amended): on the unit right triangle with b = (1,0) the code
computes area = 0.5, edge accumulation sum = 2 (terms 0, 1, 1), and
directed diameter h = 4 * 1 * 0.5 / 2 = 1. -/
theorem unit_triangle_fixture_values :
    triArea unitTri = 1 / 2 ∧ edgeSum unitTri (1, 0) = 2 ∧
      directedDiameter unitTri (1, 0) = 1 :=
  ⟨triArea_unitTri, edgeSum_unitTri, directedDiameter_unitTri⟩

/-- Witness for C4 on the unit triangle with b = (1,0). -/
theorem directed_diameter_invariant_witness :
    directedDiameter unitTri (1, 0) ≤ maxEdge unitTri ∧
      maxEdge unitTri ≤ cellDiameter unitTri :=
  directed_diameter_invariant unitTri (1, 0) (by rw [triArea_unitTri]; norm_num)
    (by rw [norm2_unit]; norm_num)

set_option maxHeartbeats 1000000 in
/-- The two branches of the Peclet function agree to 1e-12 relative accuracy
at the crossover point Pe = 1e-5; proved by sandwiching exp(x) and exp(-x)
at x = 1e-5 between degree-6 Taylor polynomials with the standard remainder
bound, which localizes coth(Pe) - 1/Pe to an interval far narrower than the
admissible deviation. -/
lemma xi_crossover :
    |(1 / Real.tanh 1e-5 - 1 / 1e-5) -
        ((1e-5 : ℝ) / 3 - (1e-5 : ℝ) ^ 3 / 45 + 2 / 945 * (1e-5 : ℝ) ^ 5)| ≤
      1e-12 * |1 / Real.tanh 1e-5 - 1 / 1e-5| := by
  rw [show (1e-5 : ℝ) = 1 / 100000 from by norm_num]
  have hsinh_pos : 0 < Real.sinh ((1 : ℝ) / 100000) := Real.sinh_pos_iff.mpr (by norm_num)
  have hx : |((1 : ℝ) / 100000)| ≤ 1 := by
    rw [abs_le]
    norm_num
  have hxn : |(-((1 : ℝ) / 100000))| ≤ 1 := by
    rw [abs_le]
    norm_num
  have hp := Real.exp_bound hx (by norm_num : (0 : ℕ) < 7)
  have hn := Real.exp_bound hxn (by norm_num : (0 : ℕ) < 7)
  norm_num [Finset.sum_range_succ, Nat.factorial] at hp hn
  rw [show |(1 : ℝ) / 100000| = 1 / 100000 from abs_of_pos (by norm_num)] at hp hn
  have hp2 := abs_le.mp hp
  have hn2 := abs_le.mp hn
  have hsinh := Real.sinh_eq ((1 : ℝ) / 100000)
  have hcosh := Real.cosh_eq ((1 : ℝ) / 100000)
  have htanh : 1 / Real.tanh ((1 : ℝ) / 100000) - 1 / ((1 : ℝ) / 100000) =
      (((1 : ℝ) / 100000) * Real.cosh ((1 : ℝ) / 100000) - Real.sinh ((1 : ℝ) / 100000)) /
        (((1 : ℝ) / 100000) * Real.sinh ((1 : ℝ) / 100000)) := by
    rw [Real.tanh_eq_sinh_div_cosh, one_div_div]
    field_simp
    ring
  set N := ((1 : ℝ) / 100000) * Real.cosh ((1 : ℝ) / 100000) - Real.sinh ((1 : ℝ) / 100000)
    with hN
  set D := ((1 : ℝ) / 100000) * Real.sinh ((1 : ℝ) / 100000) with hD
  set tval : ℝ :=
    ((1 : ℝ) / 100000) / 3 - ((1 : ℝ) / 100000) ^ 3 / 45 + 2 / 945 * ((1 : ℝ) / 100000) ^ 5
    with htval
  have hNpos : 0 < N := by
    rw [hN, hcosh, hsinh]
    linarith [hp2.1, hp2.2, hn2.1, hn2.2]
  have hDpos : 0 < D := by
    rw [hD]
    positivity
  have key : |N - tval * D| ≤ 1e-12 * N := by
    rw [abs_le]
    constructor
    · rw [hN, hD, htval, hcosh, hsinh]
      nlinarith [hp2.1, hp2.2, hn2.1, hn2.2]
    · rw [hN, hD, htval, hcosh, hsinh]
      nlinarith [hp2.1, hp2.2, hn2.1, hn2.2]
  rw [htanh]
  have hfrac : N / D - tval = (N - tval * D) / D := by
    field_simp
    ring
  rw [hfrac, abs_div, abs_of_pos hDpos, abs_of_pos (div_pos hNpos hDpos)]
  rw [div_le_iff hDpos]
  have hr : 1e-12 * (N / D) * D = 1e-12 * N := by
    field_simp
  rw [hr]
  exact key

/-- C7: the Peclet function is evaluated by the closed form
coth(Pe) - 1/Pe for Pe above the 1e-5 threshold and by the 5th-order Taylor
polynomial at or below it, and at the crossover point the two formulas agree
to within 1e-12 relative error. -/
theorem peclet_function_branches :
    (∀ Pe : ℝ, 1e-5 < Pe → xiFun Pe = 1 / Real.tanh Pe - 1 / Pe) ∧
    (∀ Pe : ℝ, 0 < Pe → Pe ≤ 1e-5 →
        xiFun Pe = Pe / 3 - Pe ^ 3 / 45 + 2 / 945 * Pe ^ 5) ∧
    |(1 / Real.tanh 1e-5 - 1 / 1e-5) -
        ((1e-5 : ℝ) / 3 - (1e-5 : ℝ) ^ 3 / 45 + 2 / 945 * (1e-5 : ℝ) ^ 5)| ≤
      1e-12 * |1 / Real.tanh 1e-5 - 1 / 1e-5| := by
  refine ⟨?_, ?_, xi_crossover⟩
  · intro Pe h
    rw [xiFun, if_pos h]
  · intro Pe h0 h1
    rw [xiFun, if_neg (not_lt.mpr h1)]

/-- Witness for C7: each branch equation applied at a concrete Peclet
number. -/
theorem peclet_function_branches_witness :
    xiFun 1 = 1 / Real.tanh 1 - 1 / 1 ∧
      xiFun 1e-6 = (1e-6 : ℝ) / 3 - (1e-6 : ℝ) ^ 3 / 45 + 2 / 945 * (1e-6 : ℝ) ^ 5 :=
  ⟨peclet_function_branches.1 1 (by norm_num),
    peclet_function_branches.2.1 1e-6 (by norm_num) (by norm_num)⟩

/-- C8: with convection at or above machine epsilon, positive diffusivity
and positive polynomial degree, the computed stabilization parameter is
nonnegative in both branches of the Peclet function; the evaluation returns
exactly (0, 0-vector) whenever the convection norm is below machine epsilon,
and consequently the returned stabilization tends to 0 (is eventually
exactly 0) as the convection magnitude tends to 0. -/
theorem supg_tau_nonneg_and_vanishes (sigma : ℝ) (p : ℕ) (t : Tri)
    (hsigma : 0 < sigma) (hp : 1 ≤ p) :
    (∀ b : ℝ × ℝ, DOLFIN_EPS ≤ norm2 b → 0 ≤ supgTauVal sigma p t b) ∧
    (∀ b : ℝ × ℝ, norm2 b < DOLFIN_EPS → supgEval sigma p t b = Except.ok (0, 0)) ∧
    (∀ e : ℝ, 0 < e → ∃ d : ℝ, 0 < d ∧ ∀ b : ℝ × ℝ, norm2 b < d →
        supgEval sigma p t b = Except.ok (0, 0)) := by
  have hzero : ∀ b : ℝ × ℝ, norm2 b < DOLFIN_EPS →
      supgEval sigma p t b = Except.ok (0, 0) := by
    intro b hb
    simp only [supgEval]
    rw [if_pos hb]
  refine ⟨?_, hzero, ?_⟩
  · intro b _
    have hh : 0 ≤ directedDiameter t b := directedDiameter_nonneg t b
    have hb0 : 0 ≤ norm2 b := Real.sqrt_nonneg _
    have hps : 0 ≤ (p : ℝ) * sigma := by positivity
    have hPe : 0 ≤ peVal sigma p t b := by
      rw [peVal]
      apply div_nonneg _ hps
      nlinarith
    have hxi : 0 ≤ xiFun (peVal sigma p t b) := xiFun_nonneg hPe
    rw [supgTauVal]
    apply div_nonneg _ (by positivity)
    nlinarith
  · intro e he
    exact ⟨DOLFIN_EPS, by norm_num [DOLFIN_EPS], hzero⟩

lemma norm2_zero_vec : norm2 ((0 : ℝ), (0 : ℝ)) = 0 := by
  rw [norm2]
  norm_num

/-- Witness for C8 on the unit triangle. -/
theorem supg_tau_nonneg_and_vanishes_witness :
    0 ≤ supgTauVal 1 1 unitTri (1, 0) ∧
      supgEval 1 1 unitTri (0, 0) = Except.ok (0, 0) :=
  ⟨(supg_tau_nonneg_and_vanishes 1 1 unitTri (by norm_num) le_rfl).1 (1, 0)
      (by rw [norm2_unit]; norm_num [DOLFIN_EPS]),
    (supg_tau_nonneg_and_vanishes 1 1 unitTri (by norm_num) le_rfl).2.1 (0, 0)
      (by rw [norm2_zero_vec]; norm_num [DOLFIN_EPS])⟩

/-! Concrete evaluation on the unit triangle with a tiny convection sample:
the supg body returns the zero vector immediately, while the supg2 body
(missing return) runs the geometry probe and produces a nonzero tau. -/

lemma norm2_tiny : norm2 ((1e-16 : ℝ), 0) = 1e-16 := by
  have h : ((1e-16 : ℝ) ^ 2 + 0 ^ 2) = (1e-16 : ℝ) ^ 2 := by norm_num
  rw [norm2, h, Real.sqrt_sq (by norm_num)]

lemma edgeSum_unitTri_tiny : edgeSum unitTri (1e-16, 0) = 2e-16 := by
  simp only [edgeSum, edgeTerm, unitTri]
  norm_num
  rw [abs_of_nonneg (by norm_num : (0 : ℝ) ≤ 1 / 10000000000000000)]
  norm_num

lemma directedDiameter_unitTri_tiny : directedDiameter unitTri (1e-16, 0) = 1 := by
  rw [directedDiameter, norm2_tiny, triArea_unitTri, edgeSum_unitTri_tiny]
  norm_num

lemma peVal_unitTri_tiny : peVal 1 1 unitTri (1e-16, 0) = 5e-17 := by
  rw [peVal, norm2_tiny, directedDiameter_unitTri_tiny]
  norm_num

/-- C3: divergence of the two bodies on conv_norm below DOLFIN_EPS.  On the
unit triangle with b = (1e-16, 0) (norm 1e-16 < 3e-16), supg returns the
zero vector immediately; supg2, whose zero assignment is dead for lack of a
return statement, runs the geometry probe and returns a strictly positive
tau (about h^2/(12*p^2*sigma) = 1/12). -/
theorem supg2_missing_return_nonzero_tau :
    supgEval 1 1 unitTri (1e-16, 0) = Except.ok (0, 0) ∧
    supg2Eval 1 1 unitTri (1e-16, 0) =
      Except.ok (supgTauVal 1 1 unitTri (1e-16, 0)) ∧
    0 < supgTauVal 1 1 unitTri (1e-16, 0) := by
  have hpe : (0 : ℝ) < peVal 1 1 unitTri (1e-16, 0) := by
    rw [peVal_unitTri_tiny]
    norm_num
  refine ⟨?_, ?_, ?_⟩
  · simp only [supgEval]
    rw [if_pos (by rw [norm2_tiny]; norm_num [DOLFIN_EPS])]
  · simp only [supg2Eval]
    rw [if_pos hpe]
  · rw [supgTauVal, peVal_unitTri_tiny, directedDiameter_unitTri_tiny, norm2_tiny, xiFun]
    rw [if_neg (by norm_num)]
    norm_num

/-! Concrete evaluation on the large triangle: tau exceeds the sanity
bound 1e3, so supg aborts while supg2 returns the value unchecked. -/

lemma triArea_bigT : triArea bigT = 5e7 := by
  simp only [triArea, cross2, bigT, Prod.mk_sub_mk]
  norm_num

lemma edgeSum_bigT : edgeSum bigT (1, 0) = 2e4 := by
  simp only [edgeSum, edgeTerm, bigT]
  norm_num

lemma directedDiameter_bigT : directedDiameter bigT (1, 0) = 1e4 := by
  rw [directedDiameter, norm2_unit, triArea_bigT, edgeSum_bigT]
  norm_num

lemma peVal_bigT : peVal 1 1 bigT (1, 0) = 5000 := by
  rw [peVal, norm2_unit, directedDiameter_bigT]
  norm_num

lemma supgTauVal_bigT : supgTauVal 1 1 bigT (1, 0) = 5000 * xiFun 5000 := by
  rw [supgTauVal, peVal_bigT, directedDiameter_bigT, norm2_unit]
  norm_num

lemma supgTauVal_bigT_large : 1e3 < supgTauVal 1 1 bigT (1, 0) := by
  rw [supgTauVal_bigT]
  have h1 : 1 - 1 / (5000 : ℝ) ≤ xiFun 5000 := one_sub_le_xiFun (by norm_num)
  nlinarith

lemma cellDiameter_bigT : cellDiameter bigT = Real.sqrt 2e8 := by
  have h01 : dist2 ((0 : ℝ), (0 : ℝ)) ((10000 : ℝ), (0 : ℝ)) = 10000 := by
    rw [dist2, show ((0 : ℝ) - 10000) ^ 2 + ((0 : ℝ) - 0) ^ 2 = 10000 ^ 2 by norm_num,
      Real.sqrt_sq (by norm_num)]
  have h02 : dist2 ((0 : ℝ), (0 : ℝ)) ((0 : ℝ), (10000 : ℝ)) = 10000 := by
    rw [dist2, show ((0 : ℝ) - 0) ^ 2 + ((0 : ℝ) - 10000) ^ 2 = 10000 ^ 2 by norm_num,
      Real.sqrt_sq (by norm_num)]
  have h12 : dist2 ((10000 : ℝ), (0 : ℝ)) ((0 : ℝ), (10000 : ℝ)) = Real.sqrt 2e8 := by
    rw [dist2]
    norm_num
  rw [cellDiameter, triArea_bigT]
  show 0.5 * dist2 ((10000 : ℝ), (0 : ℝ)) ((0 : ℝ), (10000 : ℝ)) *
      dist2 ((0 : ℝ), (0 : ℝ)) ((0 : ℝ), (10000 : ℝ)) *
      dist2 ((0 : ℝ), (0 : ℝ)) ((10000 : ℝ), (0 : ℝ)) / 5e7 = Real.sqrt 2e8
  rw [h01, h02, h12]
  ring

lemma diam_guard_bigT : directedDiameter bigT (1, 0) ≤ cellDiameter bigT := by
  rw [directedDiameter_bigT, cellDiameter_bigT]
  rw [show (1e4 : ℝ) = 10000 by norm_num]
  exact (Real.le_sqrt (by norm_num) (by norm_num)).mpr (by norm_num)

/-- C5 counterexample: on the large triangle with b = (1,0), diffusivity 1
and degree 1, the computed tau exceeds 1e3, and supg2 (whose sanity check is
commented out) returns it as an ordinary value instead of aborting. -/
theorem supg2_returns_unchecked_large_tau :
    supg2Eval 1 1 bigT (1, 0) = Except.ok (supgTauVal 1 1 bigT (1, 0)) ∧
      1e3 < supgTauVal 1 1 bigT (1, 0) := by
  refine ⟨?_, supgTauVal_bigT_large⟩
  simp only [supg2Eval]
  rw [if_pos (by rw [peVal_bigT]; norm_num)]

/-- C5 (amended): supg treats tau > 1e3 as a fatal numerical error: whenever
the guards before it pass and the computed tau exceeds 1e3 the evaluation
aborts instead of returning the value; supg2 has no such abort path at all
(its check is commented out). -/
theorem supg_tau_sanity_abort :
    (∀ (sigma : ℝ) (p : ℕ) (t : Tri) (b : ℝ × ℝ),
        DOLFIN_EPS ≤ norm2 b →
        directedDiameter t b ≤ cellDiameter t →
        0 < peVal sigma p t b →
        1e3 < supgTauVal sigma p t b →
        supgEval sigma p t b = Except.error StabError.tauTooLarge) ∧
    (∀ (sigma : ℝ) (p : ℕ) (t : Tri) (b : ℝ × ℝ),
        supg2Eval sigma p t b ≠ Except.error StabError.tauTooLarge) := by
  constructor
  · intro sigma p t b hb hdiam hpe htau
    simp only [supgEval]
    rw [if_neg (not_lt.mpr hb), if_pos hdiam, if_pos hpe, if_pos htau]
  · intro sigma p t b
    simp only [supg2Eval]
    split_ifs <;> simp

/-- Witness for C5's amended theorem: supg aborts on the large triangle. -/
theorem supg_tau_sanity_abort_witness :
    supgEval 1 1 bigT (1, 0) = Except.error StabError.tauTooLarge :=
  supg_tau_sanity_abort.1 1 1 bigT (1, 0)
    (by rw [norm2_unit]; norm_num [DOLFIN_EPS])
    diam_guard_bigT
    (by rw [peVal_bigT]; norm_num)
    supgTauVal_bigT_large

/-! Claims about the fixed-point warm start. -/

/-- C2 counterexample: in the loop body, the Stokes body force is built from
rho evaluated at theta0 (the temperature entering the iteration), not at the
fresh candidate theta1.  With rho = id, a heat solve returning theta0 + 1
and a Stokes solve returning the coefficient value it was given, the
momentum result is 0 = rho(theta0) while rho(theta1) = 1. -/
theorem momentum_uses_new_temperature_false :
    ¬ ((fpStep (fun c : ℚ => c) (fun _ th _ => th + 1) (fun c _ => c) 0 0).2 =
        (fun c : ℚ => c)
          ((fpStep (fun c : ℚ => c) (fun _ th _ => th + 1) (fun c _ => c) 0 0).1)) := by
  simp [fpStep]

/-- C2 (amended): in every outer iteration both the energy solve and the
steady momentum solve evaluate the material coefficient rho at the previous
temperature theta0; the step result is unchanged if rho is replaced by any
function agreeing with it at theta0 (in particular its values at the new
candidate theta1 are never consulted). -/
theorem momentum_evaluates_rho_at_previous_temperature {Temp Vel Coef : Type}
    (rho1 rho2 : Temp → Coef) (heatSolve : Coef → Temp → Vel → Temp)
    (stokesSolve : Coef → Vel → Vel) (theta0 : Temp) (u : Vel)
    (hagree : rho1 theta0 = rho2 theta0) :
    fpStep rho1 heatSolve stokesSolve theta0 u = fpStep rho2 heatSolve stokesSolve theta0 u := by
  simp [fpStep, hagree]

/-- Witness for C2's amended theorem at a concrete instance. -/
theorem momentum_evaluates_rho_at_previous_temperature_witness :
    (fun c : ℚ => c) (1 : ℚ) = (fun c : ℚ => c * c) 1 ∧
      fpStep (fun c : ℚ => c) (fun _ th _ => th + 1) (fun c _ => c) (1 : ℚ) 0 =
        fpStep (fun c : ℚ => c * c) (fun _ th _ => th + 1) (fun c _ => c) 1 0 :=
  ⟨by norm_num,
    momentum_evaluates_rho_at_previous_temperature _ _ _ _ _ _ (by norm_num)⟩

/-- C6: the outer loop exits exactly when the error norm between the
previous temperature and the new candidate drops below the tolerance, and
there is no iteration cap: if the error norm never falls below the
tolerance, the loop is still running after any number of iterations (the
codomain has no error outcome at all, so no NonConvergenceError is ever
produced by this stage). -/
theorem fixed_point_exit_condition_and_no_cap {Temp Vel Coef E : Type} [LinearOrder E]
    (rho : Temp → Coef) (heatSolve : Coef → Temp → Vel → Temp)
    (stokesSolve : Coef → Vel → Vel) (errnorm : Temp → Temp → E) (tol : E) :
    (∀ (n : ℕ) (th : Temp) (u : Vel),
        fpLoop rho heatSolve stokesSolve errnorm tol (n + 1) th u =
          if errnorm th (heatSolve (rho th) th u) < tol then
            some (stokesSolve (rho th) u, th)
          else
            fpLoop rho heatSolve stokesSolve errnorm tol n
              (heatSolve (rho th) th u) (stokesSolve (rho th) u)) ∧
    ((∀ th u, ¬ errnorm th (heatSolve (rho th) th u) < tol) →
      ∀ (n : ℕ) (th : Temp) (u : Vel),
        fpLoop rho heatSolve stokesSolve errnorm tol n th u = none) := by
  constructor
  · intro n th u
    simp [fpLoop, fpStep]
  · intro hnc n
    induction n with
    | zero => intro th u; rfl
    | succ n ih =>
      intro th u
      rw [show fpLoop rho heatSolve stokesSolve errnorm tol (n + 1) th u =
          fpLoop rho heatSolve stokesSolve errnorm tol n
            (heatSolve (rho th) th u) (stokesSolve (rho th) u) from by
        simp [fpLoop, fpStep, if_neg (hnc th u)]]
      exact ih _ _

/-- Witness for C6 at a concrete instance whose error norm is always 1. -/
theorem fixed_point_exit_condition_and_no_cap_witness :
    fpLoop (fun c : ℤ => c) (fun _ th (_ : ℤ) => th + 1) (fun c _ => c)
      (fun a b => b - a) 1 3 0 (0 : ℤ) = none :=
  (fixed_point_exit_condition_and_no_cap (fun c : ℤ => c) (fun _ th (_ : ℤ) => th + 1)
      (fun c _ => c) (fun a b => b - a) 1).2
    (by intro th u; simp) 3 0 0

/-- C9: the warm start ignores the initial velocity and pressure passed by
the caller: the result does not depend on them, and the first energy solve
receives the zero convection velocity of the freshly allocated mixed
function. -/
theorem warm_start_ignores_initial_state {Temp Vel Coef Pres E : Type} [Zero Vel]
    [LinearOrder E] (rho : Temp → Coef) (heatSolve : Coef → Temp → Vel → Temp)
    (stokesSolve : Coef → Vel → Vel) (errnorm : Temp → Temp → E) (tol : E) :
    (∀ (fuel : ℕ) (u0 u0' : Vel) (p0 p0' : Pres) (th0 : Temp),
        solveFixedPoint rho heatSolve stokesSolve errnorm tol fuel u0 p0 th0 =
          solveFixedPoint rho heatSolve stokesSolve errnorm tol fuel u0' p0' th0) ∧
    (∀ (fuel : ℕ) (u0 : Vel) (p0 : Pres) (th0 : Temp),
        solveFixedPoint rho heatSolve stokesSolve errnorm tol (fuel + 1) u0 p0 th0 =
          if errnorm th0 (heatSolve (rho th0) th0 0) < tol then
            some (stokesSolve (rho th0) 0, th0)
          else
            fpLoop rho heatSolve stokesSolve errnorm tol fuel
              (heatSolve (rho th0) th0 0) (stokesSolve (rho th0) 0)) := by
  constructor
  · intro fuel u0 u0' p0 p0' th0
    rfl
  · intro fuel u0 p0 th0
    simp [solveFixedPoint, fpLoop, fpStep]

/-- C10: when the convergence test passes, the loop returns theta0, the
iterate that entered the converging iteration, not the candidate theta1
produced by the last energy solve: the returned temperature thr satisfies
errnorm thr (heatSolve applied at thr) < tol, and on a concrete instance
(halving heat solve, tolerance 2) the returned temperature is 2 while the
last energy solve produced 1. -/
theorem warm_start_returns_previous_iterate {Temp Vel Coef E : Type} [LinearOrder E]
    (rho : Temp → Coef) (heatSolve : Coef → Temp → Vel → Temp)
    (stokesSolve : Coef → Vel → Vel) (errnorm : Temp → Temp → E) (tol : E) :
    (∀ (n : ℕ) (th : Temp) (u : Vel),
        fpLoop rho heatSolve stokesSolve errnorm tol n th u =
          Option.map (fun r => (r.1, r.2.1))
            (fpTrace rho heatSolve stokesSolve errnorm tol n th u)) ∧
    (∀ (n : ℕ) (th : Temp) (u v : Vel) (thr : Temp) (u1 : Vel),
        fpTrace rho heatSolve stokesSolve errnorm tol n th u = some (v, thr, u1) →
          errnorm thr (heatSolve (rho thr) thr u1) < tol ∧ v = stokesSolve (rho thr) u1) ∧
    (fpTrace (fun c : ℤ => c) (fun _ th (_ : ℤ) => th / 2) (fun _ (u : ℤ) => u)
        (fun a b => a - b) 2 5 8 (0 : ℤ) = some (0, 2, 0) ∧
      (fun (_ : ℤ) (th : ℤ) (_ : ℤ) => th / 2) ((fun c : ℤ => c) 2) 2 0 ≠ 2) := by
  refine ⟨?_, ?_, ?_, ?_⟩
  · intro n
    induction n with
    | zero => intro th u; rfl
    | succ n ih =>
      intro th u
      simp only [fpLoop, fpTrace]
      by_cases h : errnorm th (fpStep rho heatSolve stokesSolve th u).1 < tol
      · rw [if_pos h, if_pos h]
        rfl
      · rw [if_neg h, if_neg h]
        exact ih _ _
  · intro n
    induction n with
    | zero => intro th u v thr u1 h; exact absurd h (by simp [fpTrace])
    | succ n ih =>
      intro th u v thr u1 h
      simp only [fpTrace] at h
      by_cases hc : errnorm th (fpStep rho heatSolve stokesSolve th u).1 < tol
      · rw [if_pos hc] at h
        obtain ⟨hv, hth, hu⟩ := by simpa using h
        subst hv hth hu
        exact ⟨hc, rfl⟩
      · rw [if_neg hc] at h
        exact ih _ _ _ _ _ h
  · decide
  · decide

/-- Witness for C10: the general statement applied to the concrete halving
instance, where the converging iteration starts from temperature 2. -/
theorem warm_start_returns_previous_iterate_witness :
    (2 : ℤ) - 2 / 2 < 2 ∧ (0 : ℤ) = 0 :=
  (warm_start_returns_previous_iterate (fun c : ℤ => c) (fun _ th (_ : ℤ) => th / 2)
      (fun _ (u : ℤ) => u) (fun a b => a - b) 2).2.1 5 8 0 0 2 0
    ((warm_start_returns_previous_iterate (fun c : ℤ => c) (fun _ th (_ : ℤ) => th / 2)
      (fun _ (u : ℤ) => u) (fun a b => a - b) 2).2.2.1)

end Maelstrom
